import Mathlib

/-!
Verification of the isocodes lookup core (`src/isocodes/__init__.py`).

A record is a field-to-string mapping; we embed it as an association list
with unique keys, looked up with `List.lookup`.  A dataset is the ordered
list of its records.  Attribute access on the namespace records
(`getattr`/`hasattr`) is field lookup on the underlying mapping, and the
namespace record list mirrors `self.data` entry for entry, so the two are
identified here.

Query values coming from Python callers may be strings, `None`, or other
objects; they are embedded as `PyVal`.  Code paths that can raise are
embedded in `Except PyErr`.
-/

namespace Isocodes

/-- A dataset record: a mapping from field names to string values,
as an association list with unique keys. -/
abbrev Record := List (String × String)

/-- Field access on a record: `record[field]` / `getattr(record, field)`;
`hasattr` is `isSome` of this. -/
def lookupField (r : Record) (f : String) : Option String :=
  r.lookup f

/-- `charsStarts t s` is true when `t` is a prefix of `s`
(Python `s.startswith(t)` on the character lists). -/
def charsStarts : List Char → List Char → Bool
  | [], _ => true
  | _ :: _, [] => false
  | c :: t, d :: s => c == d && charsStarts t s

/-- `charsContains t s` is true when `t` occurs contiguously inside `s`
(Python `t in s` on the character lists). -/
def charsContains (t : List Char) : List Char → Bool
  | [] => t.isEmpty
  | d :: s => charsStarts t (d :: s) || charsContains t s

/-- Python's `needle in haystack` substring test. -/
def strContains (haystack needle : String) : Bool :=
  charsContains needle.data haystack.data

/-- Python's `s.startswith(t)`. -/
def strStarts (s t : String) : Bool :=
  charsStarts t.data s.data

/-- Python's `s.lower()`: lower each character. -/
def pyLowerStr (s : String) : String :=
  ⟨s.data.map Char.toLower⟩

/-- A Python value as passed for a query: a string, `None`, or some
other (non-string, hashable) object, represented by an integer. -/
inductive PyVal where
  | str (s : String)
  | int (n : Int)
  | pyNone
  deriving DecidableEq

/-- The Python exceptions the lookup core can raise or catch. -/
inductive PyErr where
  | indexError
  | stopIteration
  | typeError
  | attributeError
  deriving DecidableEq

/-! ### Index builder (`ISO._create_indexes`)

The per-field dict `self._index_<field>` is built by iterating the records
in order and writing `index[record.<field>] = record`, skipping records
without the field; later writes overwrite earlier ones.  We embed the dict
by its lookup function, built by the same left fold. -/

/-- `createIndex field data v` is the lookup at key `v` of the dict built
by `_create_indexes` for `field`: each record holding `field` overwrites
the entry at its field value. -/
def createIndex (field : String) (data : List Record) (v : String) : Option Record :=
  data.foldl
    (fun acc r =>
      match lookupField r field with
      | some w => if w = v then some r else acc
      | none => acc)
    none

/-- The four fields for which `_create_indexes` builds an index. -/
def indexedField (k : String) : Bool :=
  k == "alpha_2" || k == "alpha_3" || k == "name" || k == "numeric"

/-! ### `ISO.find` -/

/-- The indexed-lookup loop of `find`: for each criterion in order, if its
field is one of the four indexed fields and its value is present in that
index, return the indexed record; otherwise continue with the remaining
criteria. -/
def tryIndexes (data : List Record) : List (String × String) → Option Record
  | [] => none
  | (k, v) :: rest =>
    if indexedField k then
      match createIndex k data v with
      | some r => some r
      | none => tryIndexes data rest
    else tryIndexes data rest

/-- Whether a record satisfies every criterion exactly
(`hasattr(record, k) and getattr(record, k) == v` for all pairs). -/
def exactMatch (criteria : List (String × String)) (r : Record) : Bool :=
  criteria.all fun kv => lookupField r kv.1 == some kv.2

/-- `ISO.find`: `None` on empty criteria; otherwise the indexed-lookup
loop, falling back to a linear scan for the first record matching every
criterion exactly. -/
def find (data : List Record) (criteria : List (String × String)) : Option Record :=
  if criteria.isEmpty then none
  else
    match tryIndexes data criteria with
    | some r => some r
    | none => data.find? (exactMatch criteria)

/-! ### `ISO.get`

The body of `get` runs inside `try`; the list-comprehension indexing
`[...][0]` raises `IndexError` on no match, and the `except` clause turns
`IndexError`, `StopIteration` and `TypeError` into the empty sentinel
record. -/

/-- Whether a record matches `get`'s single criterion:
`key in element and value in element[key]` (substring containment). -/
def getMatch (key value : String) (r : Record) : Bool :=
  match lookupField r key with
  | some rv => strContains rv value
  | none => false

/-- The `try` body of `ISO.get`: empty record for no criteria, a `None`
value, an empty-string value, or a non-string value; otherwise the first
record whose field contains the value as a substring, raising
`IndexError` when there is none. -/
def getBody (criteria : List (String × PyVal)) (data : List Record) :
    Except PyErr Record :=
  match criteria with
  | [] => .ok []
  | (key, value) :: _ =>
    match value with
    | .pyNone => .ok []
    | .int _ => .ok []
    | .str s =>
      if s = "" then .ok []
      else
        match data.find? (getMatch key s) with
        | some r => .ok r
        | none => .error .indexError

/-- `ISO.get`: the `try` body with `IndexError`, `StopIteration` and
`TypeError` caught and replaced by the empty sentinel record. -/
def getPy (criteria : List (String × PyVal)) (data : List Record) :
    Except PyErr Record :=
  match getBody criteria data with
  | .ok r => .ok r
  | .error .indexError => .ok []
  | .error .stopIteration => .ok []
  | .error .typeError => .ok []
  | .error e => .error e

/-! ### `ISO.search` -/

/-- Python's `value.lower()`: succeeds on strings, raises
`AttributeError` on `None` or any other non-string object. -/
def pyLower : PyVal → Except PyErr String
  | .str s => .ok (pyLowerStr s)
  | _ => .error .attributeError

/-- The inner loop of `search` for one record: fail the record as soon as
a criterion's field is missing or the lowered value is not a substring of
the lowered field value; `value.lower()` is evaluated only when the field
is present. -/
def recordMatches (r : Record) : List (String × PyVal) → Except PyErr Bool
  | [] => .ok true
  | (k, v) :: rest =>
    match lookupField r k with
    | none => .ok false
    | some rv => do
      let lv ← pyLower v
      if strContains (pyLowerStr rv) lv then recordMatches r rest
      else .ok false

/-- The outer loop of `search`: collect, in dataset order, the records
matching every criterion. -/
def searchAux (criteria : List (String × PyVal)) : List Record → Except PyErr (List Record)
  | [] => .ok []
  | r :: rest => do
    let b ← recordMatches r criteria
    let l ← searchAux criteria rest
    .ok (if b then r :: l else l)

/-- `ISO.search`: empty list on empty criteria, otherwise the matching
records in dataset order. -/
def searchPy (criteria : List (String × PyVal)) (data : List Record) :
    Except PyErr (List Record) :=
  if criteria.isEmpty then .ok []
  else searchAux criteria data

/-- The record-matching predicate as the specification words it: for every
(field, value) pair the record has the field and the field value contains
the query value as a case-insensitive substring.  Stated from the spec, to
be compared with the code's `recordMatches`. -/
def searchSpecMatch (criteria : List (String × String)) (r : Record) : Bool :=
  criteria.all fun kv =>
    match lookupField r kv.1 with
    | some rv => strContains (pyLowerStr rv) (pyLowerStr kv.2)
    | none => false

/-! ### Sorted views (`ISO._sorted_by_index`)

`sorted([...], key=lambda x: x[0])` is a stable sort ordered by the string
key; we embed it with `List.insertionSort`, which is stable for the same
comparator. -/

/-- The comparison used by the sorted view: at most by the index value. -/
def pairLE (a b : String × Record) : Prop :=
  a.1 ≤ b.1

instance : DecidableRel pairLE := fun a b => inferInstanceAs (Decidable (a.1 ≤ b.1))

instance : IsTotal (String × Record) pairLE :=
  ⟨fun a b => le_total a.1 b.1⟩

instance : IsTrans (String × Record) pairLE :=
  ⟨fun _ _ _ h h' => le_trans h h'⟩

/-- The list comprehension of `_sorted_by_index`: the `(value, record)`
pairs, in dataset order, for the records holding the field. -/
def indexPairs (field : String) (data : List Record) : List (String × Record) :=
  data.filterMap fun r => (lookupField r field).map fun v => (v, r)

/-- `ISO._sorted_by_index`: the index pairs stably sorted by value. -/
def sortedByIndex (field : String) (data : List Record) : List (String × Record) :=
  (indexPairs field data).insertionSort pairLE

/-! ### Former-name resolver (`Countries`) -/

/-- One entry of the hardcoded former-names table. -/
structure FormerNameInfo where
  alpha2 : String
  alpha3 : String
  currentName : String
  changeDate : String
  comment : String
  deriving DecidableEq

/-- `Countries._former_names_data`: the hardcoded rename table for
countries that changed name but kept their codes. -/
def formerNamesData : List (String × FormerNameInfo) :=
  [("Swaziland",
    ⟨"SZ", "SWZ", "Eswatini", "2018-04-19", "Name change, codes remained the same"⟩)]

/-- `Countries._code_mappings`: former code pair to current code pair, for
countries that changed both name and codes. -/
def codeMappings : List ((String × String) × (String × String)) :=
  [(("BU", "BUR"), ("MM", "MMR")),
   (("ZR", "ZAR"), ("CD", "COD"))]

/-- `Countries._get_current_country_from_former_codes`: translate a former
code pair through the mapping table and look the current country up by its
`alpha_2` code. -/
def getCurrentFromFormerCodes (countries : List Record) (a2 a3 : String) :
    Option Record :=
  match codeMappings.lookup (a2, a3) with
  | some cc => find countries [("alpha_2", cc.1)]
  | none => none

/-- The matching test of `get_by_former_name` against one former-country
name, as the code computes it:
`former_name.lower() in country_name.lower()
 or country_name.lower().startswith(former_name.lower())`. -/
def formerNameMatches (formerName countryName : String) : Bool :=
  strContains (pyLowerStr countryName) (pyLowerStr formerName) ||
    strStarts (pyLowerStr countryName) (pyLowerStr formerName)

/-- The same matching test as the specification words it: case-sensitive
substring containment, or a case-insensitive prefix check.  Stated from
the spec, to be compared with the code's `formerNameMatches`. -/
def formerNameMatchesSpec (formerName countryName : String) : Bool :=
  strContains countryName formerName ||
    strStarts (pyLowerStr countryName) (pyLowerStr formerName)

/-- The scan of the former-countries dataset inside `get_by_former_name`:
for each entry whose name matches, try to resolve its former codes to a
current record; return the first successful resolution. -/
def scanFormer (countries : List Record) (fn : String) : List Record → Option Record
  | [] => none
  | fc :: rest =>
    if formerNameMatches fn ((lookupField fc "name").getD "") then
      match
        getCurrentFromFormerCodes countries
          ((lookupField fc "alpha_2").getD "") ((lookupField fc "alpha_3").getD "")
      with
      | some r => some r
      | none => scanFormer countries fn rest
    else scanFormer countries fn rest

/-- `Countries.get_by_former_name`: `None` for non-string or empty input;
else resolve through the hardcoded rename table by exact key, falling back
to the former-countries scan. -/
def getByFormerName (countries formerCountries : List Record)
    (formerName : PyVal) : Option Record :=
  match formerName with
  | .str fn =>
    if fn = "" then none
    else
      match formerNamesData.lookup fn with
      | some m => find countries [("alpha_2", m.alpha2)]
      | none => scanFormer countries fn formerCountries
  | _ => none

/-! ### Modeled datasets

The JSON data files under `share/iso-codes/json/` are not part of the
source tree; the records the former-name claims depend on are modeled from
the spec. -/

/-- Modelled from the spec: the `iso_3166-1.json` countries data file is
missing from the source tree; this is the fragment of the countries
dataset the former-name resolution claims depend on — the current records
for Eswatini (codes preserved from Swaziland), Myanmar (formerly Burma)
and the Democratic Republic of the Congo (formerly Zaire). -/
def countriesData : List Record :=
  [[("alpha_2", "CD"), ("alpha_3", "COD"),
    ("name", "Congo, The Democratic Republic of the"), ("numeric", "180")],
   [("alpha_2", "MM"), ("alpha_3", "MMR"),
    ("name", "Myanmar"), ("numeric", "104"), ("official_name", "Republic of Myanmar")],
   [("alpha_2", "SZ"), ("alpha_3", "SWZ"),
    ("name", "Eswatini"), ("numeric", "748"), ("official_name", "Kingdom of Eswatini")]]

/-- Modelled from the spec: the `iso_3166-3.json` former-countries data
file is missing from the source tree; this is the fragment of the
ISO 3166-3 dataset the former-name claims depend on — the withdrawn
entries for Burma and Zaire, whose codes changed, and for the German
Democratic Republic, which was absorbed and has no code mapping. -/
def formerCountriesData : List Record :=
  [[("alpha_2", "BU"), ("alpha_3", "BUR"), ("alpha_4", "BUMM"),
    ("name", "Burma, Socialist Republic of the Union of"),
    ("numeric", "104"), ("withdrawal_date", "1989-12-05")],
   [("alpha_2", "DD"), ("alpha_3", "DDR"), ("alpha_4", "DDDE"),
    ("name", "German Democratic Republic"),
    ("numeric", "278"), ("withdrawal_date", "1990-10-30")],
   [("alpha_2", "ZR"), ("alpha_3", "ZAR"), ("alpha_4", "ZRCD"),
    ("name", "Zaire, Republic of"),
    ("numeric", "180"), ("withdrawal_date", "1997-07-14")]]

/-- The Eswatini record of the modeled countries dataset. -/
def eswatiniRecord : Record :=
  [("alpha_2", "SZ"), ("alpha_3", "SWZ"),
   ("name", "Eswatini"), ("numeric", "748"), ("official_name", "Kingdom of Eswatini")]

/-- The Myanmar record of the modeled countries dataset. -/
def myanmarRecord : Record :=
  [("alpha_2", "MM"), ("alpha_3", "MMR"),
   ("name", "Myanmar"), ("numeric", "104"), ("official_name", "Republic of Myanmar")]

/-- Criteria whose values are all strings, as `PyVal` criteria. -/
def strCriteria (c : List (String × String)) : List (String × PyVal) :=
  c.map fun kv => (kv.1, PyVal.str kv.2)

/-! ## Helper lemmas -/

theorem charsStarts_contains {t s : List Char} (h : charsStarts t s = true) :
    charsContains t s = true := by
  cases s with
  | nil =>
    cases t with
    | nil => rfl
    | cons c t => simp [charsStarts] at h
  | cons d s => simp [charsContains, h]

theorem singleton_find?_eq {field v : String} (r : Record) :
    [r].find? (fun r => lookupField r field == some v) =
      match lookupField r field with
      | some w => if w = v then some r else none
      | none => none := by
  cases h : lookupField r field with
  | none => simp [List.find?, h]
  | some w =>
    by_cases hw : w = v
    · simp [List.find?, h, hw]
    · have hb : (w == v) = false := beq_eq_false_iff_ne.mpr hw
      simp [List.find?, h, hb, hw]

theorem createIndex_eq_find?_reverse (field v : String) (data : List Record) :
    createIndex field data v =
      data.reverse.find? (fun r => lookupField r field == some v) := by
  have aux : ∀ (l : List Record) (acc : Option Record),
      l.foldl
        (fun acc r =>
          match lookupField r field with
          | some w => if w = v then some r else acc
          | none => acc)
        acc =
      (l.reverse.find? (fun r => lookupField r field == some v)).or acc := by
    intro l
    induction l with
    | nil => intro acc; simp
    | cons r rest ih =>
      intro acc
      rw [List.foldl_cons, ih, List.reverse_cons, List.find?_append, Option.or_assoc]
      congr 1
      rw [singleton_find?_eq]
      cases h : lookupField r field with
      | none => simp
      | some w =>
        by_cases hw : w = v
        · simp [hw]
        · simp [hw]
  have := aux data none
  simpa [createIndex] using this

theorem createIndex_some {field v : String} {data : List Record} {r : Record}
    (h : createIndex field data v = some r) :
    r ∈ data ∧ lookupField r field = some v := by
  rw [createIndex_eq_find?_reverse] at h
  have h1 := List.find?_some h
  have h2 := List.mem_of_find?_eq_some h
  rw [List.mem_reverse] at h2
  simp only [beq_iff_eq] at h1
  exact ⟨h2, h1⟩

theorem createIndex_none {field v : String} {data : List Record}
    (h : createIndex field data v = none) :
    ∀ r ∈ data, lookupField r field ≠ some v := by
  rw [createIndex_eq_find?_reverse, List.find?_eq_none] at h
  intro r hr
  have := h r (List.mem_reverse.mpr hr)
  simpa using this

/-! ## Claims about the index builder and `find` -/

/-- C9: the index built for a field has an entry for value `v` exactly when
some record has the field with value `v` (records missing the field are
skipped), and the entry is the last such record in dataset order. -/
theorem createIndex_spec (field : String) (data : List Record) (v : String) :
    createIndex field data v =
      data.reverse.find? (fun r => lookupField r field == some v) ∧
    ((createIndex field data v).isSome ↔ ∃ r ∈ data, lookupField r field = some v) := by
  refine ⟨createIndex_eq_find?_reverse field v data, ?_⟩
  rw [createIndex_eq_find?_reverse, List.find?_isSome]
  constructor
  · rintro ⟨r, hr, hp⟩
    exact ⟨r, List.mem_reverse.mp hr, by simpa using hp⟩
  · rintro ⟨r, hr, hp⟩
    exact ⟨r, List.mem_reverse.mpr hr, by simp [hp]⟩

/-- C1: `find` with a single criterion `field = v` returns a record whose
value at that field is exactly `v`, or `none` when no record in the
dataset has that field equal to `v`; never a partial or different match. -/
theorem find_single_exact (data : List Record) (k v : String) :
    match find data [(k, v)] with
    | some r => lookupField r k = some v
    | none => ∀ r ∈ data, lookupField r k ≠ some v := by
  have hfallback :
      match data.find? (exactMatch [(k, v)]) with
      | some r => lookupField r k = some v
      | none => ∀ r ∈ data, lookupField r k ≠ some v := by
    cases hf : data.find? (exactMatch [(k, v)]) with
    | some r =>
      have := List.find?_some hf
      simpa [exactMatch] using this
    | none =>
      rw [List.find?_eq_none] at hf
      intro r hr
      have := hf r hr
      simpa [exactMatch] using this
  by_cases hk : indexedField k = true
  · cases hidx : createIndex k data v with
    | some r =>
      have hfind : find data [(k, v)] = some r := by
        simp [find, tryIndexes, hk, hidx]
      rw [hfind]
      exact (createIndex_some hidx).2
    | none =>
      have hfind : find data [(k, v)] = data.find? (exactMatch [(k, v)]) := by
        simp [find, tryIndexes, hk, hidx]
      rw [hfind]
      exact hfallback
  · have hfind : find data [(k, v)] = data.find? (exactMatch [(k, v)]) := by
      simp [find, tryIndexes, hk]
    rw [hfind]
    exact hfallback

/-- C10: when a criterion's field is indexed and its value is present in
that index, `find` returns the indexed record at once, without checking
the remaining criteria; hence `find` with several criteria can return a
record violating some of them. -/
theorem find_indexed_bypass :
    (∀ (data : List Record) (k v : String) (rest : List (String × String)) (r : Record),
        indexedField k = true → createIndex k data v = some r →
        find data ((k, v) :: rest) = some r) ∧
    (∃ (data : List Record) (c : List (String × String)) (r : Record)
        (kv : String × String),
        find data c = some r ∧ kv ∈ c ∧ lookupField r kv.1 ≠ some kv.2) := by
  constructor
  · intro data k v rest r hk hidx
    simp [find, tryIndexes, hk, hidx]
  · exact ⟨[[("alpha_2", "US"), ("name", "United States")]],
      [("alpha_2", "US"), ("name", "France")],
      [("alpha_2", "US"), ("name", "United States")],
      ("name", "France"), by decide, by simp, by decide⟩

/-- Witness for C10 at a concrete dataset: the `alpha_2` index hit is
returned even though the `name` criterion disagrees. -/
theorem find_indexed_bypass_witness :
    find [[("alpha_2", "US"), ("name", "United States")]]
        [("alpha_2", "US"), ("name", "France")] =
      some [("alpha_2", "US"), ("name", "United States")] :=
  find_indexed_bypass.1 _ "alpha_2" "US" _ _ rfl rfl

/-! ## Claims about `search` -/

theorem recordMatches_strCriteria (r : Record) :
    ∀ c : List (String × String),
      recordMatches r (strCriteria c) = .ok (searchSpecMatch c r) := by
  intro c
  induction c with
  | nil => rfl
  | cons kv c ih =>
    obtain ⟨k, v⟩ := kv
    show recordMatches r ((k, PyVal.str v) :: strCriteria c) = _
    rw [recordMatches]
    cases h : lookupField r k with
    | none => simp [searchSpecMatch, h]
    | some rv =>
      show (do
          let lv ← pyLower (PyVal.str v)
          if strContains (pyLowerStr rv) lv then recordMatches r (strCriteria c)
          else .ok false) = _
      rw [show pyLower (PyVal.str v) = .ok (pyLowerStr v) from rfl]
      show (if strContains (pyLowerStr rv) (pyLowerStr v)
          then recordMatches r (strCriteria c) else .ok false) = _
      cases hc : strContains (pyLowerStr rv) (pyLowerStr v) with
      | true => simp [ih, searchSpecMatch, h, hc]
      | false => simp [searchSpecMatch, h, hc]

theorem searchAux_strCriteria (c : List (String × String)) :
    ∀ data : List Record,
      searchAux (strCriteria c) data = .ok (data.filter (searchSpecMatch c)) := by
  intro data
  induction data with
  | nil => rfl
  | cons r rest ih =>
    show (do
        let b ← recordMatches r (strCriteria c)
        let l ← searchAux (strCriteria c) rest
        pure (if b then r :: l else l)) = _
    rw [recordMatches_strCriteria, ih]
    cases h : searchSpecMatch c r with
    | true => simp [List.filter_cons, h, Bind.bind, Except.bind, Pure.pure, Except.pure]
    | false => simp [List.filter_cons, h, Bind.bind, Except.bind, Pure.pure, Except.pure]

/-- C3: for non-empty criteria, `search` returns exactly the records, in
dataset order, that match every criterion — the record has the field and
its value contains the query value as a case-insensitive substring — and
empty criteria yield the empty sequence, not all records. -/
theorem search_matches_spec :
    (∀ (kv : String × String) (c : List (String × String)) (data : List Record),
        searchPy (strCriteria (kv :: c)) data =
          .ok (data.filter (searchSpecMatch (kv :: c)))) ∧
    (∀ data : List Record, searchPy [] data = .ok []) := by
  refine ⟨?_, fun _ => rfl⟩
  intro kv c data
  have hne : (strCriteria (kv :: c)).isEmpty = false := rfl
  rw [searchPy, hne]
  show searchAux (strCriteria (kv :: c)) data = _
  exact searchAux_strCriteria (kv :: c) data

/-- C5 counterexample: `search` with a non-string query value raises
`AttributeError` (from `value.lower()`) as soon as a record holds the
queried field, so the lookups do not all return absence on malformed
input. -/
theorem search_nonstring_raises :
    searchPy [("name", PyVal.int 0)] [[("name", "France")]] =
      .error .attributeError := rfl

/-- C5 amended: `get` never raises for any modeled input, and `search`
never raises when every criterion value is a string; `search` with a
non-string value can raise `AttributeError` (see
`search_nonstring_raises`). -/
theorem get_search_total :
    (∀ (c : List (String × PyVal)) (data : List Record), ∃ r, getPy c data = .ok r) ∧
    (∀ (c : List (String × String)) (data : List Record),
        ∃ l, searchPy (strCriteria c) data = .ok l) := by
  constructor
  · intro c data
    match c with
    | [] => exact ⟨[], rfl⟩
    | (k, .pyNone) :: rest => exact ⟨[], rfl⟩
    | (k, .int n) :: rest => exact ⟨[], rfl⟩
    | (k, .str s) :: rest =>
      rw [getPy, getBody]
      by_cases hs : s = ""
      · rw [if_pos hs]
        exact ⟨[], rfl⟩
      · rw [if_neg hs]
        cases hf : data.find? (getMatch k s) with
        | some r => exact ⟨r, rfl⟩
        | none => exact ⟨[], rfl⟩
  · intro c data
    match c with
    | [] => exact ⟨[], rfl⟩
    | kv :: c =>
      refine ⟨data.filter (searchSpecMatch (kv :: c)), ?_⟩
      have hne : (strCriteria (kv :: c)).isEmpty = false := rfl
      rw [searchPy, hne]
      exact searchAux_strCriteria (kv :: c) data

/-! ## Claims about `get` -/

/-- C2: `get` with a non-empty string value returns the first record, in
dataset order, whose field contains the value as a case-sensitive
substring, whenever such a record exists. -/
theorem get_first_substring_match (data : List Record) (k s : String)
    (rest : List (String × PyVal)) (r : Record) (hs : s ≠ "")
    (h : data.find? (getMatch k s) = some r) :
    getPy ((k, PyVal.str s) :: rest) data = .ok r := by
  rw [getPy, getBody, if_neg hs, h]

/-- Witness for C2: "ran" is matched inside "France", the first of two
records, and `get` returns that record. -/
theorem get_first_substring_match_witness :
    getPy [("name", PyVal.str "ran")] [[("name", "France")], [("name", "Germany")]] =
      .ok [("name", "France")] :=
  get_first_substring_match _ "name" "ran" [] _ (by decide) rfl

/-- C4: `get` returns the empty sentinel record — an ordinary empty
record, not an error — when no criteria are supplied, when the value is
`None`, the empty string, or not a string, and when no record matches. -/
theorem get_empty_sentinel :
    (∀ data : List Record, getPy [] data = .ok []) ∧
    (∀ (data : List Record) (k : String) (rest : List (String × PyVal)),
        getPy ((k, PyVal.pyNone) :: rest) data = .ok []) ∧
    (∀ (data : List Record) (k : String) (rest : List (String × PyVal)),
        getPy ((k, PyVal.str "") :: rest) data = .ok []) ∧
    (∀ (data : List Record) (k : String) (n : Int) (rest : List (String × PyVal)),
        getPy ((k, PyVal.int n) :: rest) data = .ok []) ∧
    (∀ (data : List Record) (k s : String) (rest : List (String × PyVal)),
        data.find? (getMatch k s) = none →
        getPy ((k, PyVal.str s) :: rest) data = .ok []) := by
  refine ⟨fun _ => rfl, fun _ _ _ => rfl, fun _ _ _ => rfl, fun _ _ _ _ => rfl, ?_⟩
  intro data k s rest hf
  rw [getPy, getBody]
  by_cases hs : s = ""
  · rw [if_pos hs]
  · rw [if_neg hs, hf]

/-- Witness for C4's no-match case: no record name contains "zz". -/
theorem get_empty_sentinel_witness :
    getPy [("name", PyVal.str "zz")] [[("name", "France")], [("name", "Germany")]] =
      .ok [] :=
  get_empty_sentinel.2.2.2.2 _ "name" "zz" [] rfl

/-! ## Claims about the former-name resolver -/

/-- C6: on the modeled datasets, `"Swaziland"` resolves through the
hardcoded rename table to the current record `SZ`/`SWZ`/"Eswatini",
`"Burma"` resolves through the former-countries scan and the code-mapping
table to `MM`/`MMR` ("Myanmar"), `"Atlantis"` is absent, and non-string or
empty input is absent. -/
theorem getByFormerName_concrete :
    getByFormerName countriesData formerCountriesData (.str "Swaziland") =
      some eswatiniRecord ∧
    lookupField eswatiniRecord "alpha_2" = some "SZ" ∧
    lookupField eswatiniRecord "alpha_3" = some "SWZ" ∧
    lookupField eswatiniRecord "name" = some "Eswatini" ∧
    getByFormerName countriesData formerCountriesData (.str "Burma") =
      some myanmarRecord ∧
    lookupField myanmarRecord "alpha_2" = some "MM" ∧
    lookupField myanmarRecord "alpha_3" = some "MMR" ∧
    lookupField myanmarRecord "name" = some "Myanmar" ∧
    getByFormerName countriesData formerCountriesData (.str "Atlantis") = none ∧
    getByFormerName countriesData formerCountriesData (.str "") = none ∧
    (∀ n : Int, getByFormerName countriesData formerCountriesData (.int n) = none) ∧
    getByFormerName countriesData formerCountriesData .pyNone = none :=
  ⟨by decide, rfl, rfl, rfl, by decide, rfl, rfl, rfl, by decide, rfl,
   fun _ => rfl, rfl⟩

/-- C7 counterexample: the claim says the former-countries scan matches by
case-sensitive substring containment (case-insensitivity only on the
prefix check); on the Burma entry the query "socialist" fails that
description's test, yet the code matches it — both of the code's checks
lowercase both sides — and resolves it to the Myanmar record rather than
returning absent. -/
theorem formerNameMatches_case_counterexample :
    formerNameMatchesSpec "socialist" "Burma, Socialist Republic of the Union of" =
      false ∧
    formerNameMatches "socialist" "Burma, Socialist Republic of the Union of" =
      true ∧
    getByFormerName countriesData formerCountriesData (.str "socialist") =
      some myanmarRecord :=
  ⟨by decide, by decide, by decide⟩

/-- C7 amended: the former-countries scan matches case-insensitively — the
substring-containment check lowercases both sides, and the
prefix-with-lowercasing check is subsumed by it — while `"swaziland"` and
`"SWAZILAND"` still return absent (the hardcoded rename table is an exact
case-sensitive key match and no former-country name contains them) and
`"Swaziland"` resolves. -/
theorem formerNameMatches_amended :
    (∀ fn cn : String,
        formerNameMatches fn cn =
          strContains (pyLowerStr cn) (pyLowerStr fn)) ∧
    getByFormerName countriesData formerCountriesData (.str "swaziland") = none ∧
    getByFormerName countriesData formerCountriesData (.str "SWAZILAND") = none ∧
    getByFormerName countriesData formerCountriesData (.str "Swaziland") =
      some eswatiniRecord := by
  refine ⟨?_, by decide, by decide, by decide⟩
  intro fn cn
  rw [formerNameMatches]
  cases h : strContains (pyLowerStr cn) (pyLowerStr fn) with
  | true => simp
  | false =>
    simp only [Bool.false_or]
    cases hs : strStarts (pyLowerStr cn) (pyLowerStr fn) with
    | false => rfl
    | true =>
      exfalso
      have : strContains (pyLowerStr cn) (pyLowerStr fn) = true :=
        charsStarts_contains hs
      rw [h] at this
      exact Bool.false_ne_true this

/-! ## Claims about the sorted views -/

theorem filter_orderedInsert_of_eq (a : String × Record) (v : String) (h : a.1 = v) :
    ∀ l : List (String × Record),
      (l.orderedInsert pairLE a).filter (fun p => p.1 == v) =
        a :: l.filter (fun p => p.1 == v) := by
  intro l
  induction l with
  | nil => simp [List.orderedInsert, List.filter_cons, h]
  | cons b l ih =>
    by_cases hab : pairLE a b
    · rw [List.orderedInsert, if_pos hab]
      simp [List.filter_cons, h]
    · rw [List.orderedInsert, if_neg hab]
      have hlt : b.1 < a.1 := lt_of_not_le hab
      have hb : (b.1 == v) = false := by
        refine beq_eq_false_iff_ne.mpr fun hbv => ?_
        rw [h] at hlt
        rw [hbv] at hlt
        exact lt_irrefl v hlt
      rw [List.filter_cons, hb]
      simp only [ih]
      rw [List.filter_cons, hb]
      simp

theorem filter_orderedInsert_of_ne (a : String × Record) (v : String) (h : ¬a.1 = v) :
    ∀ l : List (String × Record),
      (l.orderedInsert pairLE a).filter (fun p => p.1 == v) =
        l.filter (fun p => p.1 == v) := by
  intro l
  have ha : (a.1 == v) = false := beq_eq_false_iff_ne.mpr h
  induction l with
  | nil => simp [List.orderedInsert, List.filter_cons, ha]
  | cons b l ih =>
    by_cases hab : pairLE a b
    · rw [List.orderedInsert, if_pos hab]
      rw [List.filter_cons, ha]
      simp
    · rw [List.orderedInsert, if_neg hab]
      rw [List.filter_cons, ih, List.filter_cons]

theorem filter_insertionSort (v : String) :
    ∀ l : List (String × Record),
      (l.insertionSort pairLE).filter (fun p => p.1 == v) =
        l.filter (fun p => p.1 == v) := by
  intro l
  induction l with
  | nil => rfl
  | cons a l ih =>
    show ((l.insertionSort pairLE).orderedInsert pairLE a).filter _ = _
    by_cases ha : a.1 = v
    · rw [filter_orderedInsert_of_eq a v ha, ih, List.filter_cons]
      have : (a.1 == v) = true := beq_iff_eq.mpr ha
      rw [this]
      simp
    · rw [filter_orderedInsert_of_ne a v ha, ih, List.filter_cons]
      have : (a.1 == v) = false := beq_eq_false_iff_ne.mpr ha
      rw [this]
      simp

/-- C8: for every dataset and field, the sorted view's value sequence is
non-decreasing lexicographically; records with equal values keep their
original dataset order (the view filtered to one value equals the
unsorted pair list filtered to it); and every pair of the view comes from
a record of the dataset holding the field at that value. -/
theorem sortedByIndex_spec (field : String) (data : List Record) :
    ((sortedByIndex field data).map Prod.fst).Sorted (· ≤ ·) ∧
    (∀ v : String,
        (sortedByIndex field data).filter (fun p => p.1 == v) =
          (indexPairs field data).filter (fun p => p.1 == v)) ∧
    (∀ p ∈ sortedByIndex field data,
        p.2 ∈ data ∧ lookupField p.2 field = some p.1) := by
  refine ⟨?_, fun v => filter_insertionSort v _, ?_⟩
  · have hs := List.sorted_insertionSort pairLE (indexPairs field data)
    exact List.Pairwise.map Prod.fst (fun a b hab => hab) hs
  · intro p hp
    have hmem : p ∈ indexPairs field data :=
      (List.perm_insertionSort pairLE (indexPairs field data)).mem_iff.mp hp
    rw [indexPairs, List.mem_filterMap] at hmem
    obtain ⟨r, hr, hf⟩ := hmem
    rw [Option.map_eq_some'] at hf
    obtain ⟨w, hw, hpw⟩ := hf
    constructor
    · rw [← hpw]
      exact hr
    · rw [← hpw]
      exact hw

end Isocodes
